import Mathlib

/-!
Shallow embedding of the realtime-meeting-interpreter repository.

Sources embedded:
- `src/lib/realtime/useRealtimeScribe.ts` (src/unnamed/part_000, first document):
  `downsampleFloat32ToInt16PCM`, the PCM chunker inside `connect`
  (`tap.port.onmessage`), and the `COMMITTED_TRANSCRIPT` event handler.
- `src/app/page.tsx` (src/unnamed/part_000, second document): the
  committed-translation effect of `Home` (dedup set, same-language mirror,
  summary-update policy).
- `src/app/api/translate/route.ts`: `getOpenAIKey` and `POST`.
- `src/app/api/scribe-token/route.ts`: the key selection of `GET`/`POST`.

Modelling conventions:
- JavaScript numbers are idealized as exact rationals (`ℚ`), except that NaN
  is represented explicitly (`JSVal.nan`); the claims under verification do
  not depend on binary floating-point rounding.
- JavaScript strings are Lean `String`s; `String.prototype.trim` and
  `String.prototype.slice(0, n)` are modelled directly over the character
  list (`jsTrim`, `jsSlice`) so that they evaluate by kernel reduction.
- `undefined`/absent values are `Option.none`; JS truthiness of a string
  (`s || t`) is the test `s ≠ ""` on the `Option.getD "" `-projected value.
- Network calls are abstracted: an upstream HTTP response is a value of an
  explicit datatype recording exactly the observations the code makes of it.
-/

/-- JS `String.prototype.trim`: drop leading and trailing whitespace.
(The built-in `String.trim` is extensionally the same but does not reduce
in the kernel, so the model is given directly over the character list.) -/
def jsTrim (s : String) : String :=
  ⟨((s.data.dropWhile Char.isWhitespace).reverse.dropWhile Char.isWhitespace).reverse⟩

/-- JS `String.prototype.slice(0, n)` (for `n ≥ 0`): the first `n` characters. -/
def jsSlice (s : String) (n : Nat) : String := ⟨s.data.take n⟩

/-- JS `Math.round` on an (idealized, non-NaN) number: `⌊q + 1/2⌋`.
Uses the executable `Rat.floor` so that concrete values reduce. -/
def jsRound (q : ℚ) : ℤ := (q + 1/2).floor

/-- A JavaScript number as observed by the audio pipeline: either NaN or an
idealized exact value. -/
inductive JSVal where
  | nan : JSVal
  | num : ℚ → JSVal
deriving DecidableEq

/-- JS `a + b` (NaN-propagating). -/
def jsAdd : JSVal → JSVal → JSVal
  | JSVal.num a, JSVal.num b => JSVal.num (a + b)
  | _, _ => JSVal.nan

/-- JS `a - b` (NaN-propagating). -/
def jsSub : JSVal → JSVal → JSVal
  | JSVal.num a, JSVal.num b => JSVal.num (a - b)
  | _, _ => JSVal.nan

/-- JS `a * b` (NaN-propagating). -/
def jsMul : JSVal → JSVal → JSVal
  | JSVal.num a, JSVal.num b => JSVal.num (a * b)
  | _, _ => JSVal.nan

/-- JS `Math.min(a, b)`: NaN if either argument is NaN. -/
def jsMin : JSVal → JSVal → JSVal
  | JSVal.num a, JSVal.num b => JSVal.num (min a b)
  | _, _ => JSVal.nan

/-- JS `Math.max(a, b)`: NaN if either argument is NaN. -/
def jsMax : JSVal → JSVal → JSVal
  | JSVal.num a, JSVal.num b => JSVal.num (max a b)
  | _, _ => JSVal.nan

/-- JS `a < b` as a Bool: any comparison with NaN is false. -/
def jsLt : JSVal → JSVal → Bool
  | JSVal.num a, JSVal.num b => decide (a < b)
  | _, _ => false

/-- Truncation toward zero of a rational (JS `ToInteger` on a finite value). -/
def ratTrunc (q : ℚ) : ℤ := if 0 ≤ q then q.floor else -((-q).floor)

/-- Storing a JS number into an `Int16Array` slot: `ToInt16` — NaN becomes 0,
finite values are truncated toward zero and wrapped modulo 2^16 into
[-32768, 32767]. -/
def toInt16 (v : JSVal) : ℤ :=
  match v with
  | JSVal.nan => 0
  | JSVal.num q =>
    let t := ratTrunc q
    let m := t % 65536
    if 32768 ≤ m then m - 65536 else m

/-- `input[i]` on a JS array: `none` when out of bounds (JS `undefined`). -/
def jsIndex (l : List JSVal) (i : ℤ) : Option JSVal :=
  if h : 0 ≤ i ∧ i.toNat < l.length then some (l.get ⟨i.toNat, h.2⟩) else none

/-- Clamp to [-1,1] and scale to the int16 range, then store: the body of
both sample loops of `downsampleFloat32ToInt16PCM`:
`const clamped = Math.max(-1, Math.min(1, sample));`
`out[i] = clamped < 0 ? clamped * 0x8000 : clamped * 0x7fff;` -/
def clampScaleStore (sample : JSVal) : ℤ :=
  let clamped := jsMax (JSVal.num (-1)) (jsMin (JSVal.num 1) sample)
  toInt16 (if jsLt clamped (JSVal.num 0) then jsMul clamped (JSVal.num 32768)
           else jsMul clamped (JSVal.num 32767))

/-- `downsampleFloat32ToInt16PCM` from `useRealtimeScribe.ts` (lines 28-58).
Equal rates: per-sample clamp/scale passthrough. Otherwise linear
interpolation at `ratio = inputSampleRate / outputSampleRate` producing
`Math.max(1, Math.round(input.length / ratio))` samples, with out-of-bounds
reads defaulting via `?? 0` / `?? s0`. -/
def downsampleFloat32ToInt16PCM (input : List JSVal)
    (inputSampleRate outputSampleRate : ℚ) : List ℤ :=
  if outputSampleRate = inputSampleRate then
    input.map (fun s => clampScaleStore s)
  else
    let ratio := inputSampleRate / outputSampleRate
    let newLength := (max 1 (jsRound ((input.length : ℚ) / ratio))).toNat
    (List.range newLength).map (fun (i : ℕ) =>
      let pos : ℚ := (i : ℚ) * ratio
      let idx : ℤ := pos.floor
      let frac : ℚ := pos - (idx : ℚ)
      let s0 := (jsIndex input idx).getD (JSVal.num 0)
      let s1 := (jsIndex input (idx + 1)).getD s0
      let sample := jsAdd s0 (jsMul (jsSub s1 s0) (JSVal.num frac))
      clampScaleStore sample)

/-- `bytesPerChunk = Math.round((targetSampleRate * (chunkMs / 1000)) * 2)`
with `targetSampleRate = 16000`, `chunkMs = 200` (`useRealtimeScribe.ts`
lines 127-128, 275); the expression evaluates exactly to 6400. -/
def bytesPerChunk : ℕ := (jsRound ((16000 * ((200 : ℚ) / 1000)) * 2)).toNat

/-- The drain loop of `tap.port.onmessage` (`useRealtimeScribe.ts` lines
285-304): `while (pendingBytes.length >= bytesPerChunk)` emit the first
`bytesPerChunk` bytes as a frame and remove them from the front. -/
def drainFrames (pending : List ℕ) : List (List ℕ) × List ℕ :=
  if _h : bytesPerChunk ≤ pending.length then
    let rest := drainFrames (pending.drop bytesPerChunk)
    (pending.take bytesPerChunk :: rest.1, rest.2)
  else ([], pending)
termination_by pending.length
decreasing_by
  rw [List.length_drop]
  have hb : bytesPerChunk = 6400 := by with_unfolding_all decide
  omega

/-- One `tap.port.onmessage` event after resampling: append the block's
bytes to `pendingBytes` (lines 282-283), then drain full frames. -/
def chunkStep (state : List (List ℕ) × List ℕ) (block : List ℕ) :
    List (List ℕ) × List ℕ :=
  let merged := state.2 ++ block
  let r := drainFrames merged
  (state.1 ++ r.1, r.2)

/-- Processing a whole sequence of resampled byte blocks, starting from an
empty frame log and empty `pendingBytes`. -/
def processBlocks (blocks : List (List ℕ)) : List (List ℕ) × List ℕ :=
  blocks.foldl chunkStep ([], [])

/-- `LanguageOption` (`useRealtimeScribe.ts` line 12, `translate/route.ts`
line 3): `"auto" | "en" | "ja" | "ko"`. -/
inductive LanguageOption where
  | auto | en | ja | ko
deriving DecidableEq

/-- `TranscriptLine` (`useRealtimeScribe.ts` lines 14-19); `kind` is the
literal string `"partial"` or `"committed"`. -/
structure TranscriptLine where
  id : String
  text : String
  createdAt : ℤ
  kind : String
deriving DecidableEq

/-- The transcript-related state of `useRealtimeScribe`. -/
structure ScribeState where
  partialTranscript : String
  committed : List TranscriptLine
deriving DecidableEq

/-- The `COMMITTED_TRANSCRIPT` handler (`useRealtimeScribe.ts` lines
228-237): trim the event text; if empty, return without touching state;
otherwise append a committed line and clear the partial transcript.
`id` and `now` stand for the freshly generated id and `Date.now()`. -/
def onCommittedTranscript (s : ScribeState) (dataText : Option String)
    (id : String) (now : ℤ) : ScribeState :=
  let text := jsTrim (dataText.getD "")
  if text = "" then s
  else
    { partialTranscript := ""
      committed := s.committed ++ [⟨id, text, now, "committed"⟩] }

/-- A line of the `translated` list in `Home` (`page.tsx`). -/
structure TranslatedLine where
  id : String
  sourceId : String
  text : String
  createdAt : ℤ
deriving DecidableEq

/-- The arguments `Home` passes to `translateViaApi` for a committed line. -/
structure TranslateCall where
  text : String
  sourceLang : LanguageOption
  targetLang : LanguageOption
  mode : String
  updateSummary : Bool
  recent : List String
  summary : String
deriving DecidableEq

/-- What one run of the committed-translation effect does besides updating
the dedup set: nothing, mirror the source line, or issue a translate call. -/
inductive EffectAction where
  | noop : EffectAction
  | mirror : TranslatedLine → EffectAction
  | request : TranslateCall → EffectAction
deriving DecidableEq

/-- `const outLang = targetLang.value === "auto" ? "en" : targetLang.value`
(`page.tsx` line 467). -/
def outLangOf (targetLang : LanguageOption) : LanguageOption :=
  if targetLang = LanguageOption.auto then LanguageOption.en else targetLang

/-- `summary.length === 0 || scribe.committed.length % 4 === 0`
(`page.tsx` line 489). -/
def shouldUpdateSummaryOf (summary : String) (committedLen : ℕ) : Bool :=
  decide (summary.length = 0) || decide (committedLen % 4 = 0)

/-- One run of the committed-translation effect of `Home` (`page.tsx` lines
460-522), up to the point where the asynchronous response is handled:
reads the last committed line, consults/updates the dedup set
`translatedIdsRef`, and either does nothing, mirrors (same-language case),
or issues one translate request. Returns the updated dedup set and the
action taken. `now` stands for `Date.now()` in the mirror branch. -/
def committedEffect (committed : List TranscriptLine) (translatedIds : List String)
    (inputLang targetLang : LanguageOption) (summary : String) (now : ℤ) :
    List String × EffectAction :=
  match committed.getLast? with
  | none => (translatedIds, EffectAction.noop)
  | some last =>
    if translatedIds.contains last.id then (translatedIds, EffectAction.noop)
    else
      let ids := last.id :: translatedIds
      let outLang := outLangOf targetLang
      if inputLang ≠ LanguageOption.auto ∧ inputLang = outLang then
        (ids, EffectAction.mirror ⟨last.id ++ "-t", last.id, last.text, now⟩)
      else
        (ids, EffectAction.request
          { text := last.text
            sourceLang := inputLang
            targetLang := outLang
            mode := "committed"
            updateSummary := shouldUpdateSummaryOf summary committed.length
            recent := (committed.drop (committed.length - 8)).map (fun t => t.text)
            summary := summary })

/-- The running summary after the first `k` committed lines have been
processed in commit order, each line's translate response arriving before
the next line. `resp j` is the `updatedSummary` string of the response to
line `j`'s request. Models `page.tsx` lines 489-505: the request for line
`k` carries `updateSummary = shouldUpdateSummaryOf summary k` (the list has
length `k` when the effect runs), and `setSummary(res.updatedSummary)` runs
only when that flag was set and the response summary is truthy. -/
def summaryAfter (resp : ℕ → String) : ℕ → String
  | 0 => ""
  | k + 1 =>
    if shouldUpdateSummaryOf (summaryAfter resp k) (k + 1)
        && decide (resp (k + 1) ≠ "") then resp (k + 1)
    else summaryAfter resp k

/-- The `updateSummary` flag carried by the request for committed line `k`
(1-based) in the run modelled by `summaryAfter`. -/
def summaryFlagAt (resp : ℕ → String) (k : ℕ) : Bool :=
  shouldUpdateSummaryOf (summaryAfter resp (k - 1)) k

/-- `getOpenAIKey` (`translate/route.ts` lines 58-61):
`process.env.OPENAI_API_KEY || headerKey || null` where
`headerKey = req.headers.get("x-openai-api-key")?.trim()`. -/
def getOpenAIKey (envKey header : Option String) : Option String :=
  let headerKey := header.map jsTrim
  if (envKey.getD "") ≠ "" then envKey
  else if (headerKey.getD "") ≠ "" then headerKey
  else none

/-- Key selection of the token-mint endpoint (`scribe-token/route.ts` lines
13-14 and 57-59): `process.env.ELEVENLABS_API_KEY || headerKey` with
`headerKey = req.headers.get("x-elevenlabs-api-key")?.trim()`; the route
then 500s unless the result is truthy. -/
def scribeApiKey (envKey header : Option String) : Option String :=
  let headerKey := header.map jsTrim
  if (envKey.getD "") ≠ "" then envKey else headerKey

/-- `TranslateRequestBody` (`translate/route.ts` lines 5-16). Optional
fields are `Option`; `text` is kept as the string the route reads
(`payload.text || ""` is modelled by `Option.getD ""`). -/
structure TranslateRequestBody where
  sourceLang : LanguageOption
  targetLang : LanguageOption
  text : Option String
  mode : Option String
  updateSummary : Bool
  summary : Option String
  recent : Option (List String)

/-- `TranslateResponseBody` (`translate/route.ts` lines 18-23). -/
structure TranslateResponseBody where
  detectedLanguage : String
  shouldIgnore : Bool
  translation : String
  updatedSummary : String
deriving DecidableEq

/-- The projection of `JSON.parse(content)` onto the fields the route reads
(lines 171-184). A field is `some s` exactly when it is present with a
string value (`typeof x === "string"` / the `=== "en"` comparisons can only
succeed on strings); `shouldIgnore` records `Boolean(parsed.shouldIgnore)`. -/
structure ParsedModelOutput where
  detectedLanguage : Option String
  shouldIgnore : Bool
  translation : Option String
  updatedSummary : Option String
deriving DecidableEq

/-- An upstream chat-completions HTTP response as observed by the route:
`ok`/`status` of the fetch, `content = data.choices?.[0]?.message?.content`
(`none` when absent or not a string — the route also treats the empty
string as missing via JS truthiness, which the model keeps explicit), and
`parsed` = the result of `JSON.parse(content)` (`none` when parsing
throws). -/
structure UpstreamResp where
  ok : Bool
  status : ℕ
  content : Option String
  parsed : Option ParsedModelOutput

/-- The result of the route handler: an error JSON body with a non-200
status, or a 200 JSON body. Extra error-body fields (`status`, `details`,
`raw`) are elided. -/
inductive ApiResult where
  | errorResp : ℕ → String → ApiResult
  | okResp : TranslateResponseBody → ApiResult
deriving DecidableEq

/-- `POST` of `translate/route.ts` (lines 63-187). Inputs: the key sources
(`envKey` = `process.env.OPENAI_API_KEY`, `header` = the
`x-openai-api-key` header), the parsed request body (`none` when
`req.json()` throws), and the upstream response (consulted only when the
upstream call is reached). -/
def translatePOST (envKey header : Option String)
    (body : Option TranslateRequestBody) (upstream : UpstreamResp) : ApiResult :=
  match getOpenAIKey envKey header with
  | none => ApiResult.errorResp 500 "Missing OPENAI_API_KEY."
  | some _ =>
    match body with
    | none => ApiResult.errorResp 400 "Invalid JSON body."
    | some payload =>
      let text := jsTrim (payload.text.getD "")
      if text = "" then
        ApiResult.okResp
          { detectedLanguage := "other"
            shouldIgnore := false
            translation := ""
            updatedSummary := payload.summary.getD "" }
      else if upstream.ok = false then
        ApiResult.errorResp 502 "Translation request failed."
      else if (upstream.content.getD "") = "" then
        ApiResult.errorResp 502 "Model response missing content."
      else
        match upstream.parsed with
        | none => ApiResult.errorResp 502 "Model response was not valid JSON."
        | some parsed =>
          ApiResult.okResp
            { detectedLanguage :=
                match parsed.detectedLanguage with
                | some s => if s = "en" ∨ s = "ja" ∨ s = "ko" then s else "other"
                | none => "other"
              shouldIgnore := parsed.shouldIgnore
              translation := parsed.translation.getD ""
              updatedSummary :=
                match parsed.updatedSummary with
                | some s => jsSlice s 800
                | none => jsSlice (payload.summary.getD "") 800 }

/-- A concrete 801-character summary string, used to exercise the
empty-text short-circuit of `translatePOST`. -/
def summary801 : String := String.mk (List.replicate 801 'a')

/-! ### Helper lemmas -/

theorem string_length_data (s : String) : s.length = s.data.length := rfl

theorem jsSlice_length (s : String) (n : Nat) : (jsSlice s n).length = min n s.length := by
  rw [jsSlice, string_length_data, string_length_data, List.length_take]

theorem jsRound_eq_floor (q : ℚ) : jsRound q = ⌊q + 1/2⌋ := by
  rw [jsRound, Rat.floor_def', Rat.floor_def]

theorem rat_floor_eq (q : ℚ) : q.floor = ⌊q⌋ := by
  rw [Rat.floor_def', Rat.floor_def]

theorem bytesPerChunk_eq : bytesPerChunk = 6400 := by
  with_unfolding_all decide

/-! ### C5 — committed_transcript handling -/

/-- C5 (counterexample): for a whitespace-only `committed_transcript` event
the handler appends nothing and does not reset the partial transcript —
the state is returned untouched — contradicting the claim that every event
text, including whitespace-only text, appends a line and clears the
partial. -/
theorem committed_handler_whitespace_counterexample :
    (onCommittedTranscript ⟨"abc", []⟩ (some " ") "id1" 0).committed.length = 0 ∧
    (onCommittedTranscript ⟨"abc", []⟩ (some " ") "id1" 0).partialTranscript = "abc" := by
  constructor <;> rfl

/-- C5 (amended): a `committed_transcript` event whose text is nonempty
after trimming appends exactly one committed line (carrying the trimmed
text, the fresh id and timestamp) and resets the partial transcript to the
empty string; an event whose text trims to empty (empty or whitespace-only)
leaves the state completely unchanged. -/
theorem committed_handler_spec (s : ScribeState) (t : String) (id : String) (now : ℤ) :
    (jsTrim t ≠ "" →
       onCommittedTranscript s (some t) id now =
         { partialTranscript := ""
           committed := s.committed ++ [⟨id, jsTrim t, now, "committed"⟩] }) ∧
    (jsTrim t = "" → onCommittedTranscript s (some t) id now = s) := by
  constructor <;> intro h <;> simp [onCommittedTranscript, h]

/-- C5 witness: the amended theorem applied at a concrete state and event. -/
theorem committed_handler_spec_witness :
    onCommittedTranscript ⟨"p", []⟩ (some " hi ") "i1" 5 =
      { partialTranscript := "", committed := [⟨"i1", "hi", 5, "committed"⟩] } := by
  have h := (committed_handler_spec ⟨"p", []⟩ " hi " "i1" 5).1 (by decide)
  rw [h]
  decide

/-! ### C6 — same-language mirror -/

/-- C6: when the selected input language is not `auto` and equals the
selected output language, the committed-translation effect emits a mirror
line whose text is the source line's text verbatim, and issues no translate
request (the action is `mirror`, not `request`). -/
theorem same_language_mirror (committed : List TranscriptLine) (ids : List String)
    (inputLang targetLang : LanguageOption) (summary : String) (now : ℤ)
    (last : TranscriptLine)
    (hlast : committed.getLast? = some last)
    (hdedup : ids.contains last.id = false)
    (hauto : inputLang ≠ LanguageOption.auto)
    (heq : inputLang = targetLang) :
    committedEffect committed ids inputLang targetLang summary now =
      (last.id :: ids,
       EffectAction.mirror ⟨last.id ++ "-t", last.id, last.text, now⟩) := by
  subst heq
  have hmem : last.id ∉ ids := by simpa using hdedup
  simp [committedEffect, hlast, hmem, outLangOf, hauto]

/-- C6 witness: the mirror theorem applied at a concrete committed line. -/
theorem same_language_mirror_witness :
    committedEffect [⟨"a1", "hello", 0, "committed"⟩] []
        LanguageOption.en LanguageOption.en "" 7 =
      (["a1"], EffectAction.mirror ⟨"a1-t", "a1", "hello", 7⟩) :=
  same_language_mirror [⟨"a1", "hello", 0, "committed"⟩] []
    LanguageOption.en LanguageOption.en "" 7 ⟨"a1", "hello", 0, "committed"⟩
    rfl rfl (by decide) rfl

/-! ### C7 — per-id deduplication -/

theorem committedEffect_noop_of_mem (committed : List TranscriptLine)
    (ids : List String) (il tl : LanguageOption) (summary : String) (now : ℤ)
    (last : TranscriptLine) (hlast : committed.getLast? = some last)
    (hm : last.id ∈ ids) :
    committedEffect committed ids il tl summary now = (ids, EffectAction.noop) := by
  unfold committedEffect
  rw [hlast]
  simp [hm]

theorem committedEffect_fst (committed : List TranscriptLine) (ids : List String)
    (il tl : LanguageOption) (summary : String) (now : ℤ)
    (last : TranscriptLine) (hlast : committed.getLast? = some last) :
    (committedEffect committed ids il tl summary now).1 =
      if last.id ∈ ids then ids else last.id :: ids := by
  unfold committedEffect
  rw [hlast]
  by_cases hm : last.id ∈ ids <;> simp [hm]
  split <;> rfl

/-- C7: the committed-translation effect is idempotent per committed line
id. If the last committed line's id is already in the dedup set, the run is
a no-op leaving the set unchanged; and since a run always records the id in
the set before acting, re-running the effect over the same committed
history (with any languages, summary, or timestamp) after any first run is
a no-op — so at most one request is ever issued for a given id. -/
theorem dedup_at_most_once (committed : List TranscriptLine) (ids : List String)
    (il tl il' tl' : LanguageOption) (summary summary' : String) (now now' : ℤ)
    (last : TranscriptLine) (hlast : committed.getLast? = some last) :
    (last.id ∈ ids →
       committedEffect committed ids il tl summary now = (ids, EffectAction.noop)) ∧
    committedEffect committed
        (committedEffect committed ids il tl summary now).1 il' tl' summary' now' =
      ((committedEffect committed ids il tl summary now).1, EffectAction.noop) := by
  have hfst : last.id ∈ (committedEffect committed ids il tl summary now).1 := by
    rw [committedEffect_fst committed ids il tl summary now last hlast]
    by_cases hm : last.id ∈ ids <;> simp [hm]
  exact ⟨committedEffect_noop_of_mem committed ids il tl summary now last hlast,
    committedEffect_noop_of_mem committed _ il' tl' summary' now' last hlast hfst⟩

/-- C7 witness: the dedup theorem applied at a concrete history; the second
run over the same committed list is a no-op. -/
theorem dedup_at_most_once_witness :
    committedEffect [⟨"a1", "hello", 0, "committed"⟩]
        (committedEffect [⟨"a1", "hello", 0, "committed"⟩] []
          LanguageOption.en LanguageOption.ja "" 1).1
        LanguageOption.en LanguageOption.ja "" 2 =
      ((committedEffect [⟨"a1", "hello", 0, "committed"⟩] []
          LanguageOption.en LanguageOption.ja "" 1).1, EffectAction.noop) :=
  (dedup_at_most_once [⟨"a1", "hello", 0, "committed"⟩] []
    LanguageOption.en LanguageOption.ja LanguageOption.en LanguageOption.ja
    "" "" 1 2 ⟨"a1", "hello", 0, "committed"⟩ rfl).2

/-! ### C8 — API key precedence -/

/-- C8 (counterexample): with both a server-side environment key and a
request header key present, both endpoints use the environment key, not the
header key — the header does not override the environment value. -/
theorem header_override_counterexample :
    getOpenAIKey (some "env-key") (some "header-key") = some "env-key" ∧
    scribeApiKey (some "env-key") (some "header-key") = some "env-key" ∧
    some "env-key" ≠ some "header-key" := by
  refine ⟨by decide, by decide, by decide⟩

/-- C8 (amended): for both the translate endpoint (`x-openai-api-key` vs
`OPENAI_API_KEY`) and the token-mint endpoint (`x-elevenlabs-api-key` vs
`ELEVENLABS_API_KEY`), the server-side environment value takes precedence
whenever it is set and non-empty; the request header's (trimmed) key is
used only as a fallback when the environment value is unset or empty. -/
theorem apiKey_env_precedence (envKey : Option String) (hdr : String) :
    ((envKey.getD "") ≠ "" →
       getOpenAIKey envKey (some hdr) = envKey ∧
       scribeApiKey envKey (some hdr) = envKey) ∧
    ((envKey.getD "") = "" → jsTrim hdr ≠ "" →
       getOpenAIKey envKey (some hdr) = some (jsTrim hdr) ∧
       scribeApiKey envKey (some hdr) = some (jsTrim hdr)) := by
  constructor
  · intro h
    constructor <;> simp [getOpenAIKey, scribeApiKey, h]
  · intro h1 h2
    constructor <;> simp [getOpenAIKey, scribeApiKey, h1, h2]

/-- C8 witness: the precedence theorem applied with a set environment key
(environment wins) and with an absent environment key (header fallback). -/
theorem apiKey_env_precedence_witness :
    getOpenAIKey (some "sk-env") (some " sk-h ") = some "sk-env" ∧
    getOpenAIKey (some "") (some " sk-h ") = some "sk-h" := by
  constructor
  · exact ((apiKey_env_precedence (some "sk-env") " sk-h ").1 (by decide)).1
  · have h := ((apiKey_env_precedence (some "") " sk-h ").2 (by decide) (by decide)).1
    rw [h]
    decide

/-! ### C9 — summary update schedule -/

theorem string_eq_empty_of_length (s : String) (h : s.length = 0) : s = "" := by
  obtain ⟨d⟩ := s
  cases d with
  | nil => rfl
  | cons a t => simp [string_length_data] at h

theorem summaryAfter_ne_empty (resp : ℕ → String)
    (h : ∀ j, summaryFlagAt resp j = true → resp j ≠ "") :
    ∀ k, summaryAfter resp (k + 1) ≠ "" := by
  intro k
  induction k with
  | zero =>
    have hflag : summaryFlagAt resp 1 = true := by
      simp [summaryFlagAt, summaryAfter, shouldUpdateSummaryOf]
    have hr := h 1 hflag
    simp [summaryAfter, shouldUpdateSummaryOf, hr]
  | succ n ih =>
    rw [summaryAfter]
    split
    · next hcond =>
      simp only [Bool.and_eq_true, decide_eq_true_eq] at hcond
      exact hcond.2
    · exact ih

/-- C9: in a run where committed lines are processed in commit order and
every summary-updating response returns a non-empty summary before the next
line arrives, the `updateSummary` flag of the request for the `k`-th
committed line (k ≥ 1) is set exactly when `k = 1` (empty-summary
bootstrap) or `k` is a multiple of 4 — so on indices 1, 4, 8, 12, … and on
no others. -/
theorem summary_update_schedule (resp : ℕ → String)
    (h : ∀ j, summaryFlagAt resp j = true → resp j ≠ "") :
    ∀ k, 1 ≤ k → (summaryFlagAt resp k = true ↔ (k = 1 ∨ k % 4 = 0)) := by
  intro k hk
  rcases Nat.eq_or_lt_of_le hk with h1 | h2
  · rw [← h1]
    simp [summaryFlagAt, summaryAfter, shouldUpdateSummaryOf]
  · have hs := summaryAfter_ne_empty resp h (k - 2)
    have heq : k - 2 + 1 = k - 1 := by omega
    rw [heq] at hs
    have hlen : (summaryAfter resp (k - 1)).length ≠ 0 := by
      intro h0
      exact hs (string_eq_empty_of_length _ h0)
    have hd : decide ((summaryAfter resp (k - 1)).length = 0) = false := by
      simpa using hlen
    rw [summaryFlagAt, shouldUpdateSummaryOf, hd]
    simp only [Bool.false_or, decide_eq_true_eq]
    constructor
    · intro hc
      exact Or.inr hc
    · intro hc
      rcases hc with hc | hc
      · omega
      · exact hc

/-- C9 witness: the schedule theorem applied to the run where every
response carries the summary "S", at committed line index 4. -/
theorem summary_update_schedule_witness :
    summaryFlagAt (fun _ => "S") 4 = true ↔ (4 = 1 ∨ 4 % 4 = 0) :=
  summary_update_schedule (fun _ => "S")
    (fun j _ => by
      show "S" ≠ ""
      decide) 4 (by decide)

/-! ### C1 — upstream contract errors -/

/-- C1 (counterexample): an upstream 200 response whose message content is
the valid JSON object `{}` — which parses but has no `translation` field —
is NOT turned into an error: the route normalizes it into a 200 success
with `translation = ""`, contradicting the claim that a missing
`translation` field yields a non-2xx upstream-contract error. -/
theorem missing_translation_coerced_counterexample :
    translatePOST (some "k") none
        (some ⟨LanguageOption.auto, LanguageOption.en, some "hello", none,
               false, none, none⟩)
        ⟨true, 200, some "{}", some ⟨none, false, none, none⟩⟩ =
      ApiResult.okResp ⟨"other", false, "", ""⟩ := by
  rfl

/-- C1 (amended): when the upstream call is reached and returns 2xx, a
message content that is missing/empty or fails to parse as JSON surfaces as
a distinguished 502 upstream-contract error; but a successfully parsed
object missing the `translation` field is NOT an error — it is normalized
into a 200 success with `translation` coerced to the empty string. -/
theorem upstream_contract_errors (envKey header : Option String)
    (payload : TranslateRequestBody) (upstream : UpstreamResp)
    (hkey : getOpenAIKey envKey header ≠ none)
    (htext : jsTrim (payload.text.getD "") ≠ "")
    (hok : upstream.ok = true) :
    ((upstream.content.getD "") = "" →
       translatePOST envKey header (some payload) upstream =
         ApiResult.errorResp 502 "Model response missing content.") ∧
    ((upstream.content.getD "") ≠ "" → upstream.parsed = none →
       translatePOST envKey header (some payload) upstream =
         ApiResult.errorResp 502 "Model response was not valid JSON.") ∧
    (∀ p, (upstream.content.getD "") ≠ "" → upstream.parsed = some p →
       p.translation = none →
       ∃ b, translatePOST envKey header (some payload) upstream =
              ApiResult.okResp b ∧ b.translation = "") := by
  obtain ⟨k, hk⟩ : ∃ k, getOpenAIKey envKey header = some k := by
    cases hkk : getOpenAIKey envKey header
    · exact absurd hkk hkey
    · exact ⟨_, rfl⟩
  refine ⟨fun hc => ?_, fun hc hp => ?_, fun p hc hp htr => ?_⟩
  · simp [translatePOST, hk, htext, hok, hc]
  · simp [translatePOST, hk, htext, hok, hc, hp]
  · refine ⟨{ detectedLanguage :=
                match p.detectedLanguage with
                | some s => if s = "en" ∨ s = "ja" ∨ s = "ko" then s else "other"
                | none => "other"
              shouldIgnore := p.shouldIgnore
              translation := p.translation.getD ""
              updatedSummary :=
                match p.updatedSummary with
                | some s => jsSlice s 800
                | none => jsSlice (payload.summary.getD "") 800 }, ?_, ?_⟩
    · simp [translatePOST, hk, htext, hok, hc, hp]
    · simp [htr]

/-- C1 witness: the amended theorem applied at a concrete request whose
upstream content is not valid JSON. -/
theorem upstream_contract_errors_witness :
    translatePOST (some "k") none
        (some ⟨LanguageOption.auto, LanguageOption.en, some "hi", none,
               false, none, none⟩)
        ⟨true, 200, some "not json", none⟩ =
      ApiResult.errorResp 502 "Model response was not valid JSON." :=
  ((upstream_contract_errors (some "k") none
      ⟨LanguageOption.auto, LanguageOption.en, some "hi", none, false, none, none⟩
      ⟨true, 200, some "not json", none⟩
      (by decide) (by decide) rfl).2.1 (by decide) rfl)

/-! ### C2 — updatedSummary length bound -/

/-- C2 (counterexample): the empty-input-text short-circuit echoes the
input summary without clamping, so a 200 response can carry an
`updatedSummary` of 801 characters, contradicting the claim that every 200
response (including the short-circuit path) is bounded by 800. -/
theorem summary_bound_counterexample :
    translatePOST (some "k") none
        (some ⟨LanguageOption.auto, LanguageOption.en, some "", none,
               false, some summary801, none⟩)
        ⟨true, 200, none, none⟩ =
      ApiResult.okResp ⟨"other", false, "", summary801⟩ ∧
    800 < summary801.length := by
  constructor
  · rfl
  · show 800 < (List.replicate 801 'a').length
    rw [List.length_replicate]
    omega

/-- C2 (amended): whenever the route actually consults the upstream model
(input text nonempty after trimming), every 200 response has
`updatedSummary` of at most 800 characters; on the empty-input-text
short-circuit, however, `updatedSummary` is the input summary echoed
verbatim and is therefore only bounded when the input summary is. -/
theorem updatedSummary_bound (envKey header : Option String)
    (payload : TranslateRequestBody) (upstream : UpstreamResp) :
    (jsTrim (payload.text.getD "") ≠ "" →
       ∀ b, translatePOST envKey header (some payload) upstream =
              ApiResult.okResp b →
         b.updatedSummary.length ≤ 800) ∧
    (jsTrim (payload.text.getD "") = "" → getOpenAIKey envKey header ≠ none →
       ∃ b, translatePOST envKey header (some payload) upstream =
              ApiResult.okResp b ∧
            b.updatedSummary = payload.summary.getD "") := by
  constructor
  · intro htext b hres
    unfold translatePOST at hres
    split at hres
    · exact ApiResult.noConfusion hres
    · dsimp only at hres
      rw [if_neg htext] at hres
      split at hres
      · exact ApiResult.noConfusion hres
      · split at hres
        · exact ApiResult.noConfusion hres
        · split at hres
          · exact ApiResult.noConfusion hres
          · next p heq =>
            have hb : b.updatedSummary =
                match p.updatedSummary with
                | some s => jsSlice s 800
                | none => jsSlice (payload.summary.getD "") 800 := by
              cases hres
              rfl
            rcases hps : p.updatedSummary with _ | s
            · rw [hb, hps]
              rw [jsSlice_length]
              omega
            · rw [hb, hps]
              rw [jsSlice_length]
              omega
  · intro htext hkey
    obtain ⟨k, hk⟩ : ∃ k, getOpenAIKey envKey header = some k := by
      cases hkk : getOpenAIKey envKey header
      · exact absurd hkk hkey
      · exact ⟨_, rfl⟩
    refine ⟨⟨"other", false, "", payload.summary.getD ""⟩, ?_, rfl⟩
    simp [translatePOST, hk, htext]

/-- C2 witness: the bound theorem applied at a concrete request whose
upstream response carries a short summary. -/
theorem updatedSummary_bound_witness :
    (TranslateResponseBody.mk "other" false "t" "s").updatedSummary.length ≤ 800 :=
  (updatedSummary_bound (some "k") none
      ⟨LanguageOption.auto, LanguageOption.en, some "hi", none, false, none, none⟩
      ⟨true, 200, some "c", some ⟨none, false, some "t", some "s"⟩⟩).1
    (by decide) ⟨"other", false, "t", "s"⟩ rfl

/-! ### C4 — downsample output length -/

/-- C4 (counterexample): for the empty input at 48kHz → 16kHz the code
returns one sample, not `round(0/3) = 0` samples, because of the
`Math.max(1, …)` floor on the computed length. -/
theorem downsample_empty_counterexample :
    (downsampleFloat32ToInt16PCM [] 48000 16000).length = 1 ∧
    jsRound (((List.length ([] : List JSVal) : ℕ) : ℚ) / 3) = 0 := by
  constructor
  · with_unfolding_all decide
  · with_unfolding_all decide

theorem jsRound_div_three (n : ℕ) : jsRound ((n : ℚ) / 3) = ((n + 1) / 3 : ℕ) := by
  rw [jsRound_eq_floor]
  have h1 : ((n : ℚ) / 3 + 1 / 2) = ((2 * n + 3 : ℕ) : ℤ) / ((6 : ℕ) : ℚ) := by
    push_cast
    ring
  rw [h1, Rat.floor_intCast_div_natCast]
  omega

/-- C4 (amended): for every input at 48kHz → 16kHz (ratio 3) the output
length is `max(1, round(N/3))` — the claimed `round(N/3)` except that the
code never returns fewer than one sample, which differs exactly for
`N ∈ {0, 1}` where `round(N/3) = 0`. -/
theorem downsample_length_48k (input : List JSVal) :
    (downsampleFloat32ToInt16PCM input 48000 16000).length =
      max 1 ((input.length + 1) / 3) := by
  rw [downsampleFloat32ToInt16PCM]
  rw [if_neg (by norm_num)]
  dsimp only
  rw [List.length_map, List.length_range]
  have h3 : (48000 : ℚ) / 16000 = 3 := by norm_num
  rw [h3, jsRound_div_three]
  omega

/-! ### C10 — downsample totality and int16 range -/

theorem ratTrunc_bounds (q : ℚ) (hlo : -32768 ≤ q) (hhi : q ≤ 32767) :
    -32768 ≤ ratTrunc q ∧ ratTrunc q ≤ 32767 := by
  rw [ratTrunc]
  split
  · next h0 =>
    rw [rat_floor_eq]
    constructor
    · have := Int.floor_nonneg.mpr h0
      omega
    · have : (⌊q⌋ : ℚ) ≤ 32767 := le_trans (Int.floor_le q) hhi
      exact_mod_cast this
  · next h0 =>
    rw [rat_floor_eq]
    push_neg at h0
    constructor
    · have h1 : (⌊-q⌋ : ℚ) ≤ 32768 := le_trans (Int.floor_le (-q)) (by linarith)
      have h2 : ⌊-q⌋ ≤ (32768 : ℤ) := by exact_mod_cast h1
      omega
    · have h1 : 0 ≤ ⌊-q⌋ := Int.floor_nonneg.mpr (by linarith)
      omega

/-- When the truncated scaled value already fits in the int16 range — as
the clamp guarantees — the `Int16Array` store performs no modular wrap. -/
theorem toInt16_eq_of_range (q : ℚ) (hlo : -32768 ≤ ratTrunc q)
    (hhi : ratTrunc q ≤ 32767) :
    toInt16 (JSVal.num q) = ratTrunc q := by
  rw [toInt16]
  omega

theorem clampScaleStore_range (s : JSVal) :
    -32768 ≤ clampScaleStore s ∧ clampScaleStore s ≤ 32767 := by
  cases s with
  | nan =>
    constructor <;> decide
  | num q =>
    rw [clampScaleStore]
    have hc1 : (-1 : ℚ) ≤ max (-1) (min 1 q) := le_max_left _ _
    have hc2 : max (-1) (min 1 q) ≤ 1 :=
      max_le (by norm_num) (min_le_left _ _)
    simp only [jsMax, jsMin, jsLt, jsMul, decide_eq_true_eq]
    split
    · next hneg =>
      have hb1 : (-32768 : ℚ) ≤ max (-1) (min 1 q) * 32768 := by nlinarith
      have hb2 : max (-1) (min 1 q) * 32768 ≤ 32767 := by nlinarith
      have htr := ratTrunc_bounds _ hb1 hb2
      rw [toInt16_eq_of_range _ htr.1 htr.2]
      exact htr
    · have hb1 : (-32768 : ℚ) ≤ max (-1) (min 1 q) * 32767 := by nlinarith
      have hb2 : max (-1) (min 1 q) * 32767 ≤ 32767 := by nlinarith
      have htr := ratTrunc_bounds _ hb1 hb2
      rw [toInt16_eq_of_range _ htr.1 htr.2]
      exact htr

/-- C10: `downsampleFloat32ToInt16PCM` is total and range-safe — for every
input sample list (any length, any values including out-of-range and NaN)
and every positive pair of sample rates, every output sample lies in the
signed 16-bit range [-32768, 32767], via the clamp of each (possibly
interpolated) sample to [-1,1] before scaling by 0x8000 / 0x7fff. -/
theorem downsample_total_range (input : List JSVal) (inRate outRate : ℚ)
    (_hin : 0 < inRate) (_hout : 0 < outRate) :
    ∀ y ∈ downsampleFloat32ToInt16PCM input inRate outRate,
      -32768 ≤ y ∧ y ≤ 32767 := by
  intro y hy
  rw [downsampleFloat32ToInt16PCM] at hy
  split at hy
  · simp only [List.mem_map] at hy
    obtain ⟨x, _, rfl⟩ := hy
    exact clampScaleStore_range x
  · simp only [List.mem_map, List.mem_range] at hy
    obtain ⟨i, _, rfl⟩ := hy
    exact clampScaleStore_range _

/-- C10 witness: the range theorem applied at a concrete input containing
an out-of-range sample, at 48kHz → 16kHz. -/
theorem downsample_total_range_witness :
    -32768 ≤ (downsampleFloat32ToInt16PCM [JSVal.num 2] 48000 16000).headI ∧
    (downsampleFloat32ToInt16PCM [JSVal.num 2] 48000 16000).headI ≤ 32767 :=
  downsample_total_range [JSVal.num 2] 48000 16000 (by norm_num) (by norm_num)
    (downsampleFloat32ToInt16PCM [JSVal.num 2] 48000 16000).headI
    (by with_unfolding_all decide)

/-! ### C3 — chunker framing and byte conservation -/

theorem drainFrames_spec : ∀ (n : ℕ) (p : List ℕ), p.length ≤ n →
    (drainFrames p).1.flatten ++ (drainFrames p).2 = p ∧
    ((drainFrames p).1.all fun f => f.length == bytesPerChunk) = true ∧
    (drainFrames p).2.length < bytesPerChunk := by
  intro n
  induction n with
  | zero =>
    intro p hp
    have hp0 : p = [] := by
      cases p
      · rfl
      · simp at hp
    subst hp0
    rw [drainFrames]
    rw [dif_neg (by rw [bytesPerChunk_eq]; simp)]
    refine ⟨rfl, rfl, ?_⟩
    rw [bytesPerChunk_eq]
    simp
  | succ m ih =>
    intro p hp
    rw [drainFrames]
    by_cases hc : bytesPerChunk ≤ p.length
    · rw [dif_pos hc]
      have hdrop : (p.drop bytesPerChunk).length ≤ m := by
        rw [List.length_drop]
        have : 0 < bytesPerChunk := by rw [bytesPerChunk_eq]; omega
        omega
      obtain ⟨ih1, ih2, ih3⟩ := ih (p.drop bytesPerChunk) hdrop
      refine ⟨?_, ?_, ih3⟩
      · show (p.take bytesPerChunk ++ (drainFrames (p.drop bytesPerChunk)).1.flatten)
            ++ (drainFrames (p.drop bytesPerChunk)).2 = p
        rw [List.append_assoc, ih1, List.take_append_drop]
      · show (decide ((p.take bytesPerChunk).length = bytesPerChunk)
            && (drainFrames (p.drop bytesPerChunk)).1.all
                 (fun f => f.length == bytesPerChunk)) = true
        rw [ih2, List.length_take]
        simp [min_eq_left hc]
    · rw [dif_neg hc]
      refine ⟨rfl, rfl, ?_⟩
      show p.length < bytesPerChunk
      omega

theorem flatten_length_of_all (l : List (List ℕ))
    (h : (l.all fun f => f.length == bytesPerChunk) = true) :
    l.flatten.length = l.length * bytesPerChunk := by
  induction l with
  | nil => simp
  | cons a t ih =>
    simp only [List.all_cons, Bool.and_eq_true, beq_iff_eq] at h
    rw [List.flatten_cons, List.length_append, ih h.2, List.length_cons, h.1]
    ring

theorem processBlocks_invariant (blocks : List (List ℕ)) :
    ∀ (fs : List (List ℕ)) (p : List ℕ),
      (fs.all fun f => f.length == bytesPerChunk) = true →
      p.length < bytesPerChunk →
      ((blocks.foldl chunkStep (fs, p)).1.flatten ++
          (blocks.foldl chunkStep (fs, p)).2 = fs.flatten ++ p ++ blocks.flatten) ∧
      ((blocks.foldl chunkStep (fs, p)).1.all fun f => f.length == bytesPerChunk) = true ∧
      (blocks.foldl chunkStep (fs, p)).2.length < bytesPerChunk := by
  induction blocks with
  | nil =>
    intro fs p hfs hp
    refine ⟨?_, hfs, hp⟩
    simp
  | cons b bs ih =>
    intro fs p hfs hp
    rw [List.foldl_cons]
    have hstep : chunkStep (fs, p) b =
        (fs ++ (drainFrames (p ++ b)).1, (drainFrames (p ++ b)).2) := rfl
    rw [hstep]
    obtain ⟨d1, d2, d3⟩ := drainFrames_spec (p ++ b).length (p ++ b) le_rfl
    have hall : ((fs ++ (drainFrames (p ++ b)).1).all
        fun f => f.length == bytesPerChunk) = true := by
      rw [List.all_append, hfs, d2]
      rfl
    obtain ⟨i1, i2, i3⟩ := ih (fs ++ (drainFrames (p ++ b)).1) (drainFrames (p ++ b)).2
      hall d3
    refine ⟨?_, i2, i3⟩
    rw [i1, List.flatten_append, List.flatten_cons]
    rw [List.append_assoc (fs.flatten), d1]
    simp [List.append_assoc]

/-- C3: for every sequence of resampled PCM byte blocks, the chunker emits
exactly `⌊totalBytes / frameBytes⌋` full frames of exactly
`frameBytes = 6400` bytes each (6400 = 16000 · 0.2 s · 2 bytes), retains
exactly `totalBytes mod frameBytes` bytes as the pending remainder, and the
emitted frames followed by the remainder reproduce the input byte stream
exactly — no byte duplicated, dropped, or reordered. -/
theorem chunker_exact_framing (blocks : List (List ℕ)) :
    (processBlocks blocks).1.length = blocks.flatten.length / bytesPerChunk ∧
    ((processBlocks blocks).1.all fun f => f.length == bytesPerChunk) = true ∧
    (processBlocks blocks).2.length = blocks.flatten.length % bytesPerChunk ∧
    (processBlocks blocks).1.flatten ++ (processBlocks blocks).2 = blocks.flatten ∧
    bytesPerChunk = 6400 := by
  unfold processBlocks
  obtain ⟨h1, h2, h3⟩ := processBlocks_invariant blocks [] [] rfl
    (by rw [bytesPerChunk_eq]; simp)
  rw [List.flatten_nil, List.nil_append, List.nil_append] at h1
  have hlen : (List.foldl chunkStep ([], []) blocks).1.flatten.length +
      (List.foldl chunkStep ([], []) blocks).2.length = blocks.flatten.length := by
    rw [← List.length_append, h1]
  rw [flatten_length_of_all _ h2] at hlen
  have hb := bytesPerChunk_eq
  refine ⟨?_, h2, ?_, h1, hb⟩
  · rw [hb] at hlen h3 ⊢
    omega
  · rw [hb] at hlen h3 ⊢
    omega
